import Mathlib

/-!
Verification of the `mtserver` thread-pool library (`src/lib.rs`).

The Rust source defines a fixed-size thread pool:

* `ThreadPool { workers : Vec<Worker>, sender : Option<mpsc::Sender<Job>> }`
* `Worker { id : usize, thread : Option<JoinHandle<()>> }`
* `ThreadPool::new(size)` asserts `size > 0`, creates one channel, wraps
  the receiver in `Arc<Mutex<..>>`, and spawns `size` workers with ids
  `0..size`.
* `ThreadPool::execute(f)` boxes the job and sends it through the sender,
  panicking (`expect`) if the sender `Option` is `None` or if `send` fails.
* `Drop for ThreadPool` first drops the sender (`self.sender.take()`),
  then for each worker in creation order prints a message and joins its
  thread, turning a join error into a printed diagnostic.
* `Worker::new` spawns a thread looping on
  `let message = receiver.lock().expect(..).recv();` followed by a match
  executing the job on `Ok` and breaking on `Err`.

We embed this shallowly: jobs are identified by natural numbers, panics
become `Except` errors, the concurrent pool is a small-step transition
system, and the drop / worker-loop code paths are rendered as event
traces mirroring the statement order of the source.
-/

namespace MTServer

/-- Panic exits of the library, one per `assert!`/`expect` in the source. -/
inductive PanicKind where
  /-- The `assert!(size > 0)` in `ThreadPool::new` failed. -/
  | assertFailed : PanicKind
  /-- The `expect` on `self.sender.as_ref()` in `execute` failed. -/
  | senderExpectFailed : PanicKind
  /-- The `expect` on `send(job)` in `execute` failed. -/
  | sendExpectFailed : PanicKind
deriving DecidableEq, Repr

/-- Model of `Worker`: an id and an optional thread handle (the handle
itself carries no data we track, so it is `Option Unit`). -/
structure Worker where
  id : Nat
  thread : Option Unit
deriving DecidableEq, Repr

/-- Model of `ThreadPool`: the workers in creation order and the optional
send endpoint. -/
structure ThreadPool where
  workers : List Worker
  sender : Option Unit
deriving DecidableEq, Repr

/-- Model of `ThreadPool::new`: `assert!(size > 0)` is a panic on
`size = 0`; otherwise the loop `for i in 0..size` pushes
`Worker::new(i, ..)`, each worker owning a freshly spawned thread, and the
pool stores `Some(tx)` as its sender. -/
def ThreadPool.new (size : Nat) : Except PanicKind ThreadPool :=
  if 0 < size then
    .ok { workers := (List.range size).map fun i => { id := i, thread := some () },
          sender := some () }
  else
    .error .assertFailed

/-- Model of `ThreadPool::execute`. The channel state at the call is the
flag `receiverAlive` (whether any receiver endpoint still exists; `send`
returns `Err` exactly when it does not) together with the queued jobs.
`execute` matches the source statement chain:
`self.sender.as_ref().expect(..).send(job).expect(..)`.
On success it returns the queue with the job appended. -/
def ThreadPool.execute (p : ThreadPool) (receiverAlive : Bool)
    (queue : List Nat) (job : Nat) : Except PanicKind (List Nat) :=
  match p.sender with
  | none => .error .senderExpectFailed
  | some _ =>
    if receiverAlive then
      .ok (queue ++ [job])
    else
      .error .sendExpectFailed

/-- Model of the state of a `ThreadPool` value after `Drop::drop` ran:
`self.sender.take()` leaves `None`, and `worker.thread.take()` leaves
`None` in every worker. -/
def ThreadPool.afterDrop (p : ThreadPool) : ThreadPool :=
  { workers := p.workers.map fun w => { w with thread := none },
    sender := none }

/-- Observable events of `Drop for ThreadPool`, in source statement
order. `joinThread` is the `thread.join()` call; `printJoinError` is the
`println!` inside `unwrap_or_else` that reports a failed join. -/
inductive DropEvent where
  /-- The statement `drop(self.sender.take())`. -/
  | dropSender : DropEvent
  /-- The `println!` announcing shutdown of worker `id`. -/
  | printShutdown : Nat → DropEvent
  /-- The `thread.join()` call on worker `id`. -/
  | joinThread : Nat → DropEvent
  /-- The diagnostic `println!` run by `unwrap_or_else` when joining
  worker `id` returned an error. -/
  | printJoinError : Nat → DropEvent
deriving DecidableEq, Repr

/-- Events produced by the loop body of `Drop for ThreadPool` for one
worker, given which joins succeed (`joinOk w.id = false` models a thread
that terminated abnormally, so `join` returns `Err`). The `if let
Some(thread) = worker.thread.take()` guard skips the join when the handle
is absent; `unwrap_or_else` turns a join error into a diagnostic print
and otherwise does nothing, so the loop always continues to the next
worker. -/
def workerDropEvents (joinOk : Nat → Bool) (w : Worker) : List DropEvent :=
  .printShutdown w.id ::
    match w.thread with
    | some _ => .joinThread w.id :: (if joinOk w.id then [] else [.printJoinError w.id])
    | none => []

/-- Model of `Drop for ThreadPool` as an event trace: first
`drop(self.sender.take())`, then the worker loop in vector order. -/
def ThreadPool.dropEvents (p : ThreadPool) (joinOk : Nat → Bool) : List DropEvent :=
  .dropSender :: p.workers.flatMap (workerDropEvents joinOk)

/-- Extract the id of a join event. -/
def joinIdOf : DropEvent → Option Nat
  | .joinThread i => some i
  | _ => none

/-- Primitive actions of one iteration of the worker-thread loop in
`Worker::new`, in execution order. -/
inductive WAction where
  /-- The `receiver.lock()` call acquiring the mutex. -/
  | lockAcquire : WAction
  /-- The `recv()` call on the locked receiver. -/
  | recvAttempt : WAction
  /-- The implicit drop of the `MutexGuard` temporary. -/
  | lockRelease : WAction
  /-- The `println!` in the `Ok(job)` arm. -/
  | printGotJob : WAction
  /-- The `job()` invocation. -/
  | execJob : Nat → WAction
  /-- The `println!` in the `Err(_)` arm. -/
  | printDisconnect : WAction
  /-- The `break` leaving the loop. -/
  | breakLoop : WAction
deriving DecidableEq, Repr

/-- Whether the mutex on the shared receiver is held after one action,
given whether it was held before. -/
def lockAfterAction (held : Bool) : WAction → Bool
  | .lockAcquire => true
  | .lockRelease => false
  | .recvAttempt => held
  | .printGotJob => held
  | .execJob _ => held
  | .printDisconnect => held
  | .breakLoop => held

/-- Whether the mutex is held after a sequence of actions. -/
def lockHeldAfter (held : Bool) : List WAction → Bool
  | [] => held
  | a :: rest => lockHeldAfter (lockAfterAction held a) rest

/-- One iteration of the loop in `Worker::new`, as its action sequence.
The statement `let message = receiver.lock().expect(..).recv();` acquires
the mutex, calls `recv`, and then drops the `MutexGuard` — a temporary of
that `let` statement, dropped at the end of the statement, before the
`match` — so `lockRelease` precedes both match arms. The `Ok(job)` arm
prints and runs the job; the `Err(_)` arm prints and breaks. `message` is
`some j` when `recv` returned `Ok` with job `j`, `none` when it returned
`Err` (channel closed and empty). -/
def workerIterationActions (message : Option Nat) : List WAction :=
  [.lockAcquire, .recvAttempt, .lockRelease] ++
    match message with
    | some j => [.printGotJob, .execJob j]
    | none => [.printDisconnect, .breakLoop]

/-- States of a worker thread: `running` while the loop continues,
`terminated` after the clean `break` on a closed channel, `panicked`
after the `expect` on a poisoned lock unwound the thread. -/
inductive WorkerState where
  | running : WorkerState
  | terminated : WorkerState
  | panicked : WorkerState
deriving DecidableEq, Repr

/-- Outcome of `recv()` on the shared receiver: a job, or the
disconnected error reported when no sender remains and no job is
pending. -/
inductive RecvResult where
  | ok : Nat → RecvResult
  | err : RecvResult
deriving DecidableEq, Repr

/-- Outcome of `receiver.lock()` followed by `recv()`: either the lock
was acquired and `recv` produced `msg`, or the lock was poisoned and the
`expect` panics. -/
inductive LockResult where
  | acquired : RecvResult → LockResult
  | poisoned : LockResult
deriving DecidableEq, Repr

/-- A worker thread starts its loop in the `running` state. -/
def workerInitialState : WorkerState := WorkerState.running

/-- Transition of the worker loop in `Worker::new` on one iteration
input: `Ok(job)` keeps looping, `Err(_)` breaks (clean termination), a
poisoned lock panics the thread; ended threads make no further
transitions. -/
def workerStep : WorkerState → LockResult → WorkerState
  | .running, .poisoned => .panicked
  | .running, .acquired (.ok _) => .running
  | .running, .acquired .err => .terminated
  | .terminated, _ => .terminated
  | .panicked, _ => .panicked

/-- Phase of one worker thread inside the running pool: in the loop head
(`idle`), holding the receiver mutex inside `recv` (`hasLock`), running a
dequeued job outside the lock (`executing j`), or exited after the clean
`break` (`terminated`). -/
inductive WPhase where
  | idle : WPhase
  | hasLock : WPhase
  | executing : Nat → WPhase
  | terminated : WPhase
deriving DecidableEq, Repr

/-- Global state of the concurrent pool: the channel queue (FIFO of job
ids) and whether its send side was dropped, the holder of the receiver
mutex, the phase of each worker (indexed by worker id, i.e. position),
the jobs submitted so far (numbered in submission order), and the log of
completed job executions as (worker id, job id) pairs. -/
structure PoolSys where
  queue : List Nat
  closed : Bool
  lock : Option Nat
  phases : List WPhase
  submitted : List Nat
  executed : List (Nat × Nat)
deriving DecidableEq, Repr

/-- Jobs currently dequeued but not yet finished (held by an
`executing` worker). -/
def inflight (l : List WPhase) : List Nat :=
  l.filterMap fun p =>
    match p with
    | WPhase.executing j => some j
    | _ => none

/-- Initial state right after `ThreadPool::new(size)`: empty channel,
sender alive, mutex free, every worker at its loop head, nothing
submitted or executed. -/
def initSys (size : Nat) : PoolSys :=
  { queue := [], closed := false, lock := none,
    phases := List.replicate size WPhase.idle, submitted := [], executed := [] }

/-- Interleaved small-step semantics of the pool. Worker `w` is the
worker whose phase sits at position `l₁.length` of the phase list.

* `send`: `ThreadPool::execute` enqueues the next job (jobs are numbered
  in submission order); it requires the sender to still exist.
* `close`: `drop(self.sender.take())` closes the channel.
* `acquire`: a worker at its loop head wins `receiver.lock()` when the
  mutex is free.
* `recvOk`: `recv()` returns `Ok(job)` with the queue head; the
  `MutexGuard` temporary is dropped at the end of the `let` statement, so
  the same step releases the mutex, and the worker goes on to run the job
  outside the lock.
* `recvClosed`: with the channel closed and empty, `recv()` returns
  `Err`, the guard is dropped, and the worker breaks out of its loop.
* `exec`: a worker finishes running its job, which is appended to the
  execution log, and returns to the loop head.

A worker holding the mutex on an empty, still-open channel blocks inside
`recv` and has no step, exactly like the source. -/
inductive Step : PoolSys → PoolSys → Prop where
  | send (s t : PoolSys) (hc : s.closed = false)
      (ht : t = { s with
        queue := s.queue ++ [s.submitted.length]
        submitted := s.submitted ++ [s.submitted.length] }) :
      Step s t
  | close (s t : PoolSys) (hc : s.closed = false)
      (ht : t = { s with closed := true }) :
      Step s t
  | acquire (s t : PoolSys) (l₁ l₂ : List WPhase)
      (hp : s.phases = l₁ ++ WPhase.idle :: l₂) (hl : s.lock = none)
      (ht : t = { s with
        phases := l₁ ++ WPhase.hasLock :: l₂
        lock := some l₁.length }) :
      Step s t
  | recvOk (s t : PoolSys) (l₁ l₂ : List WPhase) (j : Nat) (q : List Nat)
      (hp : s.phases = l₁ ++ WPhase.hasLock :: l₂) (hl : s.lock = some l₁.length)
      (hq : s.queue = j :: q)
      (ht : t = { s with
        phases := l₁ ++ WPhase.executing j :: l₂
        lock := none
        queue := q }) :
      Step s t
  | recvClosed (s t : PoolSys) (l₁ l₂ : List WPhase)
      (hp : s.phases = l₁ ++ WPhase.hasLock :: l₂) (hl : s.lock = some l₁.length)
      (hq : s.queue = []) (hc : s.closed = true)
      (ht : t = { s with
        phases := l₁ ++ WPhase.terminated :: l₂
        lock := none }) :
      Step s t
  | exec (s t : PoolSys) (l₁ l₂ : List WPhase) (j : Nat)
      (hp : s.phases = l₁ ++ WPhase.executing j :: l₂)
      (ht : t = { s with
        phases := l₁ ++ WPhase.idle :: l₂
        executed := s.executed ++ [(l₁.length, j)] }) :
      Step s t

/-- States reachable from a freshly constructed pool of `size` workers. -/
inductive Reach (size : Nat) : PoolSys → Prop where
  | init : Reach size (initSys size)
  | step {s t : PoolSys} : Reach size s → Step s t → Reach size t

/-- Invariant of the pool semantics: submitted jobs are partitioned among
the queue, the in-flight jobs and the execution log; jobs are numbered
`0, 1, ...`; a terminated worker implies a closed channel; if every
worker of a nonempty pool has terminated the queue is empty; and the
worker count is fixed. -/
def Inv (size : Nat) (s : PoolSys) : Prop :=
  ((s.submitted : Multiset Nat) =
      ↑s.queue + ↑(inflight s.phases) + ↑(s.executed.map Prod.snd)) ∧
    s.submitted = List.range s.submitted.length ∧
    (WPhase.terminated ∈ s.phases → s.closed = true) ∧
    ((∀ p ∈ s.phases, p = WPhase.terminated) → s.phases ≠ [] → s.queue = []) ∧
    s.phases.length = size

/-- A shutdown that has run to completion: the sender was dropped and
every worker thread was joined, which in this model means every worker
reached `terminated`. -/
def dropComplete (s : PoolSys) : Prop :=
  s.closed = true ∧ ∀ p ∈ s.phases, p = WPhase.terminated

/-- Step 0 of the concrete demonstration run: `ThreadPool::new(1)`. -/
def demo0 : PoolSys := initSys 1

/-- Step 1: `execute` submits job 0. -/
def demo1 : PoolSys :=
  { queue := [0], closed := false, lock := none,
    phases := [WPhase.idle], submitted := [0], executed := [] }

/-- Step 2: the pool is dropped, closing the channel. -/
def demo2 : PoolSys :=
  { queue := [0], closed := true, lock := none,
    phases := [WPhase.idle], submitted := [0], executed := [] }

/-- Step 3: worker 0 acquires the receiver mutex. -/
def demo3 : PoolSys :=
  { queue := [0], closed := true, lock := some 0,
    phases := [WPhase.hasLock], submitted := [0], executed := [] }

/-- Step 4: worker 0 receives job 0 and releases the mutex. -/
def demo4 : PoolSys :=
  { queue := [], closed := true, lock := none,
    phases := [WPhase.executing 0], submitted := [0], executed := [] }

/-- Step 5: worker 0 finishes job 0. -/
def demo5 : PoolSys :=
  { queue := [], closed := true, lock := none,
    phases := [WPhase.idle], submitted := [0], executed := [(0, 0)] }

/-- Step 6: worker 0 re-acquires the mutex. -/
def demo6 : PoolSys :=
  { queue := [], closed := true, lock := some 0,
    phases := [WPhase.hasLock], submitted := [0], executed := [(0, 0)] }

/-- Step 7: `recv` reports the channel closed and worker 0 terminates. -/
def demo7 : PoolSys :=
  { queue := [], closed := true, lock := none,
    phases := [WPhase.terminated], submitted := [0], executed := [(0, 0)] }

end MTServer

namespace MTServer

/-- Claim C5: for every `size ≥ 1`, `ThreadPool::new(size)` succeeds and
returns a pool with exactly `size` workers, each owning one spawned
thread, with ids `0, 1, ..., size-1` in order. -/
theorem new_creates_size_workers (size : Nat) (hsz : 1 ≤ size) :
    ∃ p : ThreadPool, ThreadPool.new size = .ok p ∧
      p.workers.length = size ∧
      p.workers.map Worker.id = List.range size ∧
      ∀ w ∈ p.workers, w.thread = some () := by
  have h0 : 0 < size := hsz
  refine ⟨⟨(List.range size).map fun i => ⟨i, some ()⟩, some ()⟩, ?_, ?_, ?_, ?_⟩
  · rw [ThreadPool.new, if_pos h0]
  · simp
  · simp [Function.comp_def]
  · intro w hw
    simp at hw
    obtain ⟨i, _, hi⟩ := hw
    simp [← hi]

/-- Witness for C5 at `size = 3`. -/
theorem new_creates_size_workers_witness :
    ∃ p : ThreadPool, ThreadPool.new 3 = .ok p ∧
      p.workers.length = 3 ∧
      p.workers.map Worker.id = List.range 3 ∧
      ∀ w ∈ p.workers, w.thread = some () :=
  new_creates_size_workers 3 (by decide)

/-- Claim C6: `ThreadPool::new(0)` panics (the `assert!(size > 0)`
precondition fails), deterministically, and never returns a pool. -/
theorem new_zero_panics :
    ThreadPool.new 0 = .error .assertFailed ∧
      ∀ p : ThreadPool, ThreadPool.new 0 ≠ .ok p := by
  constructor
  · rfl
  · intro p h
    simp [ThreadPool.new] at h

/-- Witness for C6: the panic outcome, read off from the theorem. -/
theorem new_zero_panics_witness :
    ThreadPool.new 0 = .error .assertFailed :=
  new_zero_panics.1

/-- Claim C7: calling `execute` when the job queue has been closed (no
receiver endpoint remains alive) panics via one of the two `expect`s and
never returns normally, so the job is never silently dropped; moreover,
whenever `execute` does return normally the job really was enqueued. -/
theorem execute_after_close_panics (p : ThreadPool) (queue : List Nat) (job : Nat) :
    (p.execute false queue job = .error .senderExpectFailed ∨
      p.execute false queue job = .error .sendExpectFailed) ∧
    (∀ q, p.execute false queue job ≠ .ok q) ∧
    (∀ alive q, p.execute alive queue job = .ok q → q = queue ++ [job]) := by
  refine ⟨?_, ?_, ?_⟩
  · cases h : p.sender with
    | none => left; simp [ThreadPool.execute, h]
    | some u => right; simp [ThreadPool.execute, h]
  · intro q h
    cases hs : p.sender with
    | none => simp [ThreadPool.execute, hs] at h
    | some u => simp [ThreadPool.execute, hs] at h
  · intro alive q h
    cases hs : p.sender with
    | none => simp [ThreadPool.execute, hs] at h
    | some u =>
      cases alive with
      | false => simp [ThreadPool.execute, hs] at h
      | true =>
        simp [ThreadPool.execute, hs] at h
        exact h.symm

/-- Witness for C7 on a concrete pool with one worker and a one-element
queue. -/
theorem execute_after_close_panics_witness :
    ((ThreadPool.mk [⟨0, some ()⟩] (some ())).execute false [5] 7 =
          .error .senderExpectFailed ∨
        (ThreadPool.mk [⟨0, some ()⟩] (some ())).execute false [5] 7 =
          .error .sendExpectFailed) ∧
      ∀ q, (ThreadPool.mk [⟨0, some ()⟩] (some ())).execute false [5] 7 ≠ .ok q := by
  have h := execute_after_close_panics (ThreadPool.mk [⟨0, some ()⟩] (some ())) [5] 7
  exact ⟨h.1, h.2.1⟩

/-- Claim C10: every pool returned by `new` has `sender = Some`, and it
stays `Some` until `Drop::drop` takes it (after drop it is `None`); hence
on a live pool the `expect` on `sender.as_ref()` can never fire, and
`execute` can only panic through the `send` call failing. -/
theorem sender_some_until_drop (size : Nat) (hsz : 1 ≤ size) (p : ThreadPool)
    (hp : ThreadPool.new size = .ok p) :
    p.sender = some () ∧
      p.afterDrop.sender = none ∧
      (∀ alive queue job, p.execute alive queue job ≠ .error .senderExpectFailed) ∧
      (∀ alive queue job k, p.execute alive queue job = .error k →
        k = .sendExpectFailed) := by
  have h0 : 0 < size := hsz
  have hsender : p.sender = some () := by
    rw [ThreadPool.new, if_pos h0] at hp
    cases hp
    rfl
  refine ⟨hsender, rfl, ?_, ?_⟩
  · intro alive queue job h
    rw [ThreadPool.execute] at h
    rw [hsender] at h
    cases alive with
    | false => simp at h
    | true => simp at h
  · intro alive queue job k h
    rw [ThreadPool.execute] at h
    rw [hsender] at h
    cases alive with
    | false => simp at h; exact h.symm
    | true => simp at h

/-- Witness for C10 at `size = 1`. -/
theorem sender_some_until_drop_witness :
    (ThreadPool.mk [⟨0, some ()⟩] (some ())).sender = some () ∧
      (ThreadPool.mk [⟨0, some ()⟩] (some ())).afterDrop.sender = none ∧
      (∀ alive queue job,
        (ThreadPool.mk [⟨0, some ()⟩] (some ())).execute alive queue job ≠
          .error .senderExpectFailed) ∧
      (∀ alive queue job k,
        (ThreadPool.mk [⟨0, some ()⟩] (some ())).execute alive queue job = .error k →
          k = .sendExpectFailed) :=
  sender_some_until_drop 1 (by decide) (ThreadPool.mk [⟨0, some ()⟩] (some ())) (by rfl)

/-- The per-worker drop events of a worker that owns a thread contain
exactly one join, carrying the id of that worker. -/
theorem filterMap_joinIdOf_workerDropEvents (joinOk : Nat → Bool) (w : Worker)
    (hw : w.thread = some ()) :
    (workerDropEvents joinOk w).filterMap joinIdOf = [w.id] := by
  cases w with
  | mk i t =>
    simp at hw
    subst hw
    simp only [workerDropEvents, joinIdOf]
    by_cases hj : joinOk i = true
    · simp [hj, joinIdOf]
    · simp at hj
      simp [hj, joinIdOf]

/-- No per-worker drop event is the sender drop. -/
theorem dropSender_not_mem_workerDropEvents (joinOk : Nat → Bool) (w : Worker) :
    DropEvent.dropSender ∉ workerDropEvents joinOk w := by
  cases w with
  | mk i t =>
    cases t with
    | none => simp [workerDropEvents]
    | some u =>
      by_cases hj : joinOk i = true
      · simp [workerDropEvents, hj]
      · simp at hj
        simp [workerDropEvents, hj]

/-- Claim C3: dropping a pool built by `new` produces the two shutdown
phases in a fixed order — the very first event drops the send endpoint
(and the sender is dropped nowhere else), and only afterwards are the
workers joined, one each, sequentially in creation order, i.e. by
ascending id `0, 1, ..., size-1`. Holds for every pattern of join
outcomes. -/
theorem drop_two_phase_order (size : Nat) (hsz : 1 ≤ size) (p : ThreadPool)
    (hp : ThreadPool.new size = .ok p) (joinOk : Nat → Bool) :
    ∃ rest, p.dropEvents joinOk = DropEvent.dropSender :: rest ∧
      DropEvent.dropSender ∉ rest ∧
      rest.filterMap joinIdOf = List.range size := by
  have h0 : 0 < size := hsz
  rw [ThreadPool.new, if_pos h0] at hp
  cases hp
  refine ⟨_, rfl, ?_, ?_⟩
  · intro hmem
    rw [List.mem_flatMap] at hmem
    obtain ⟨w, _, hw⟩ := hmem
    exact dropSender_not_mem_workerDropEvents joinOk w hw
  · rw [List.filterMap_flatMap, List.flatMap_map]
    have : ∀ i ∈ List.range size,
        (workerDropEvents joinOk ⟨i, some ()⟩).filterMap joinIdOf = [i] := by
      intro i _
      exact filterMap_joinIdOf_workerDropEvents joinOk ⟨i, some ()⟩ rfl
    rw [List.flatMap_congr this]
    exact List.flatMap_singleton' _

/-- Witness for C3 at `size = 2` with all joins succeeding. -/
theorem drop_two_phase_order_witness :
    ∃ rest, (ThreadPool.mk [⟨0, some ()⟩, ⟨1, some ()⟩] (some ())).dropEvents
        (fun _ => true) = DropEvent.dropSender :: rest ∧
      DropEvent.dropSender ∉ rest ∧
      rest.filterMap joinIdOf = List.range 2 :=
  drop_two_phase_order 2 (by decide)
    (ThreadPool.mk [⟨0, some ()⟩, ⟨1, some ()⟩] (some ())) (by rfl) (fun _ => true)

/-- Claim C8: during shutdown of a pool built by `new`, for every pattern
of join outcomes (`joinOk i = false` models worker `i` having already
terminated abnormally, so `join` returns `Err`), every worker is still
joined — the failed join does not abort the loop — and each failure is
reported by the diagnostic print. -/
theorem drop_tolerates_join_failures (size : Nat) (hsz : 1 ≤ size) (p : ThreadPool)
    (hp : ThreadPool.new size = .ok p) (joinOk : Nat → Bool) (i : Nat) (hi : i < size) :
    DropEvent.joinThread i ∈ p.dropEvents joinOk ∧
      (joinOk i = false → DropEvent.printJoinError i ∈ p.dropEvents joinOk) := by
  have h0 : 0 < size := hsz
  rw [ThreadPool.new, if_pos h0] at hp
  cases hp
  constructor
  · rw [ThreadPool.dropEvents]
    refine List.mem_cons_of_mem _ ?_
    rw [List.mem_flatMap]
    refine ⟨⟨i, some ()⟩, ?_, ?_⟩
    · simp [hi]
    · by_cases hj : joinOk i = true
      · simp [workerDropEvents, hj]
      · simp at hj
        simp [workerDropEvents, hj]
  · intro hj
    rw [ThreadPool.dropEvents]
    refine List.mem_cons_of_mem _ ?_
    rw [List.mem_flatMap]
    refine ⟨⟨i, some ()⟩, ?_, ?_⟩
    · simp [hi]
    · simp [workerDropEvents, hj]

/-- Witness for C8 at `size = 2` where the join of worker 0 fails. -/
theorem drop_tolerates_join_failures_witness :
    DropEvent.joinThread 1 ∈ (ThreadPool.mk [⟨0, some ()⟩, ⟨1, some ()⟩]
        (some ())).dropEvents (fun i => ¬ i = 0) ∧
      ((fun i : Nat => decide (¬ i = 0)) 1 = false →
        DropEvent.printJoinError 1 ∈ (ThreadPool.mk [⟨0, some ()⟩, ⟨1, some ()⟩]
          (some ())).dropEvents (fun i => ¬ i = 0)) :=
  drop_tolerates_join_failures 2 (by decide)
    (ThreadPool.mk [⟨0, some ()⟩, ⟨1, some ()⟩] (some ())) (by rfl)
    (fun i => ¬ i = 0) 1 (by decide)

/-- Claim C2: in a worker-loop iteration that receives job `j`, the mutex
on the shared receiver is released before the job runs (it is not held at
the `execJob` action, and the `lockRelease` comes earlier in the
iteration than the job invocation), while it is held at the `recvAttempt`
itself — the lock covers the receive operation and nothing after it. -/
theorem lock_released_before_job_runs (j : Nat) :
    (∀ pre post, workerIterationActions (some j) = pre ++ WAction.execJob j :: post →
      lockHeldAfter false pre = false) ∧
    (∀ pre post, workerIterationActions (some j) = pre ++ WAction.lockRelease :: post →
      WAction.execJob j ∈ post) ∧
    (∀ pre post, workerIterationActions (some j) = pre ++ WAction.recvAttempt :: post →
      lockHeldAfter false pre = true) := by
  refine ⟨?_, ?_, ?_⟩
  · intro pre post h
    simp only [workerIterationActions] at h
    replace h := h.symm
    rcases pre with _ | ⟨a, _ | ⟨b, _ | ⟨c, _ | ⟨d, _ | ⟨e, pre⟩⟩⟩⟩⟩ <;>
      simp_all [lockHeldAfter, lockAfterAction]
  · intro pre post h
    simp only [workerIterationActions] at h
    replace h := h.symm
    rcases pre with _ | ⟨a, _ | ⟨b, _ | ⟨c, _ | ⟨d, _ | ⟨e, pre⟩⟩⟩⟩⟩ <;>
      simp_all
  · intro pre post h
    simp only [workerIterationActions] at h
    replace h := h.symm
    rcases pre with _ | ⟨a, _ | ⟨b, _ | ⟨c, _ | ⟨d, _ | ⟨e, pre⟩⟩⟩⟩⟩ <;>
      simp_all [lockHeldAfter, lockAfterAction]

/-- Witness for C2 at `j = 7`, instantiating the first conjunct at the
actual decomposition of the iteration trace. -/
theorem lock_released_before_job_runs_witness :
    lockHeldAfter false
      [WAction.lockAcquire, WAction.recvAttempt, WAction.lockRelease,
        WAction.printGotJob] = false :=
  (lock_released_before_job_runs 7).1
    [WAction.lockAcquire, WAction.recvAttempt, WAction.lockRelease,
      WAction.printGotJob] [] rfl

/-- Claim C9: the worker loop is a state machine that starts in
`running`, moves to `terminated` exactly when a receive attempt reports
the channel closed, never leaves `terminated`, and whose only non-error
exit from `running` is that closed-channel receive (the only other exit,
a poisoned lock, is the panicking error path). -/
theorem worker_state_machine :
    workerInitialState = WorkerState.running ∧
      (∀ lr, workerStep .running lr = .terminated ↔ lr = .acquired .err) ∧
      (∀ lr, workerStep .terminated lr = .terminated) ∧
      (∀ lr, workerStep .running lr ≠ .running →
        lr = .acquired .err ∨ lr = .poisoned) ∧
      (∀ lr, workerStep .running lr = .panicked ↔ lr = .poisoned) := by
  refine ⟨rfl, ?_, ?_, ?_, ?_⟩
  · intro lr
    rcases lr with ⟨_ | _⟩ | _ <;> simp [workerStep]
  · intro lr
    rfl
  · intro lr h
    rcases lr with ⟨_ | _⟩ | _ <;> simp_all [workerStep]
  · intro lr
    rcases lr with ⟨_ | _⟩ | _ <;> simp [workerStep]

/-- Witness for C9: the closed-channel receive sends `running` to
`terminated`. -/
theorem worker_state_machine_witness :
    workerStep .running (.acquired .err) = WorkerState.terminated :=
  (worker_state_machine.2.1 (.acquired .err)).mpr rfl

/-- In-flight jobs distribute over list append. -/
theorem inflight_append (l₁ l₂ : List WPhase) :
    inflight (l₁ ++ l₂) = inflight l₁ ++ inflight l₂ := by
  simp [inflight]

/-- An idle worker holds no in-flight job. -/
theorem inflight_idle_cons (l : List WPhase) :
    inflight (WPhase.idle :: l) = inflight l := rfl

/-- A worker inside `recv` holds no in-flight job. -/
theorem inflight_hasLock_cons (l : List WPhase) :
    inflight (WPhase.hasLock :: l) = inflight l := rfl

/-- A terminated worker holds no in-flight job. -/
theorem inflight_terminated_cons (l : List WPhase) :
    inflight (WPhase.terminated :: l) = inflight l := rfl

/-- An executing worker holds exactly its job in flight. -/
theorem inflight_executing_cons (j : Nat) (l : List WPhase) :
    inflight (WPhase.executing j :: l) = j :: inflight l := rfl

/-- When every worker has terminated, no job is in flight. -/
theorem inflight_eq_nil_of_all_terminated (l : List WPhase)
    (h : ∀ p ∈ l, p = WPhase.terminated) : inflight l = [] := by
  induction l with
  | nil => rfl
  | cons p rest ih =>
    have hp := h p (by simp)
    subst hp
    rw [inflight_terminated_cons]
    exact ih fun q hq => h q (by simp [hq])

/-- The invariant holds in the initial state. -/
theorem inv_init (size : Nat) : Inv size (initSys size) := by
  refine ⟨?_, rfl, ?_, ?_, ?_⟩
  · simp [initSys, inflight]
  · intro hmem
    simp [initSys, List.mem_replicate] at hmem
  · intro _ _
    rfl
  · simp [initSys]

/-- The invariant is preserved by every step of the pool semantics. -/
theorem inv_step (size : Nat) (s t : PoolSys) (hs : Inv size s) (hst : Step s t) :
    Inv size t := by
  obtain ⟨hperm, hsub, hterm, hempty, hlen⟩ := hs
  cases hst with
  | send hc ht =>
    subst ht
    refine ⟨?_, ?_, ?_, ?_, ?_⟩
    · dsimp only
      simp only [← Multiset.coe_add]
      rw [hperm]
      abel
    · dsimp only
      simp only [List.length_append, List.length_singleton]
      rw [List.range_succ, ← hsub]
    · exact hterm
    · intro hall hne
      obtain ⟨p, hp⟩ := List.exists_mem_of_ne_nil _ hne
      have hpt := hall p hp
      exact absurd (hterm (hpt ▸ hp)) (by simp [hc])
    · exact hlen
  | close hc ht =>
    subst ht
    exact ⟨hperm, hsub, fun _ => rfl, hempty, hlen⟩
  | acquire l₁ l₂ hp hl ht =>
    subst ht
    rw [hp] at hperm hterm hempty hlen
    refine ⟨?_, hsub, ?_, ?_, ?_⟩
    · dsimp only
      have hinf : inflight (l₁ ++ WPhase.hasLock :: l₂) =
          inflight (l₁ ++ WPhase.idle :: l₂) := by
        simp [inflight_append, inflight_hasLock_cons, inflight_idle_cons]
      rw [hinf]
      exact hperm
    · intro hmem
      apply hterm
      simp only [List.mem_append, List.mem_cons] at hmem ⊢
      rcases hmem with h1 | h1 | h1
      · exact Or.inl h1
      · exact absurd h1 (by simp)
      · exact Or.inr (Or.inr h1)
    · intro hall _
      exact absurd (hall WPhase.hasLock (by simp)) (by simp)
    · simpa using hlen
  | recvOk l₁ l₂ j q hp hl hq ht =>
    subst ht
    rw [hp] at hperm hterm hempty hlen
    rw [hq] at hperm
    refine ⟨?_, hsub, ?_, ?_, ?_⟩
    · dsimp only
      rw [inflight_append, inflight_executing_cons]
      rw [inflight_append, inflight_hasLock_cons] at hperm
      rw [hperm]
      simp only [← Multiset.cons_coe, ← Multiset.coe_add, ← Multiset.singleton_add]
      abel
    · intro hmem
      apply hterm
      simp only [List.mem_append, List.mem_cons] at hmem ⊢
      rcases hmem with h1 | h1 | h1
      · exact Or.inl h1
      · exact absurd h1 (by simp)
      · exact Or.inr (Or.inr h1)
    · intro hall _
      exact absurd (hall (WPhase.executing j) (by simp)) (by simp)
    · simpa using hlen
  | recvClosed l₁ l₂ hp hl hq hc ht =>
    subst ht
    rw [hp] at hperm hterm hempty hlen
    refine ⟨?_, hsub, ?_, ?_, ?_⟩
    · dsimp only
      have hinf : inflight (l₁ ++ WPhase.terminated :: l₂) =
          inflight (l₁ ++ WPhase.hasLock :: l₂) := by
        simp [inflight_append, inflight_hasLock_cons, inflight_terminated_cons]
      rw [hinf]
      exact hperm
    · intro _
      exact hc
    · intro _ _
      exact hq
    · simpa using hlen
  | exec l₁ l₂ j hp ht =>
    subst ht
    rw [hp] at hperm hterm hempty hlen
    refine ⟨?_, hsub, ?_, ?_, ?_⟩
    · dsimp only
      rw [inflight_append, inflight_idle_cons]
      rw [inflight_append, inflight_executing_cons] at hperm
      rw [List.map_append]
      rw [hperm]
      simp only [List.map_cons, List.map_nil]
      simp only [← Multiset.cons_coe, ← Multiset.coe_add, ← Multiset.singleton_add]
      abel
    · intro hmem
      apply hterm
      simp only [List.mem_append, List.mem_cons] at hmem ⊢
      rcases hmem with h1 | h1 | h1
      · exact Or.inl h1
      · exact absurd h1 (by simp)
      · exact Or.inr (Or.inr h1)
    · intro hall _
      exact absurd (hall WPhase.idle (by simp)) (by simp)
    · simpa using hlen

/-- Every reachable state satisfies the invariant. -/
theorem reach_inv (size : Nat) (s : PoolSys) (h : Reach size s) : Inv size s := by
  induction h with
  | init => exact inv_init size
  | step _ hst ih => exact inv_step size _ _ ih hst

/-- The demonstration run is reachable in a pool of one worker. -/
theorem reach_demo7 : Reach 1 demo7 := by
  have h1 : Step demo0 demo1 := Step.send demo0 demo1 rfl (by decide)
  have h2 : Step demo1 demo2 := Step.close demo1 demo2 rfl (by decide)
  have h3 : Step demo2 demo3 :=
    Step.acquire demo2 demo3 [] [] (by decide) rfl (by decide)
  have h4 : Step demo3 demo4 :=
    Step.recvOk demo3 demo4 [] [] 0 [] (by decide) (by decide) (by decide) (by decide)
  have h5 : Step demo4 demo5 :=
    Step.exec demo4 demo5 [] [] 0 (by decide) (by decide)
  have h6 : Step demo5 demo6 :=
    Step.acquire demo5 demo6 [] [] (by decide) rfl (by decide)
  have h7 : Step demo6 demo7 :=
    Step.recvClosed demo6 demo7 [] [] (by decide) (by decide) (by decide) rfl (by decide)
  exact Reach.step (Reach.step (Reach.step (Reach.step (Reach.step (Reach.step
    (Reach.step Reach.init h1) h2) h3) h4) h5) h6) h7

/-- Claim C1: in every reachable state of a pool of any size `≥ 1`, each
job appears at most once in the execution log (no job runs twice), any
two executions of the same job were by the same worker (jobs go to
exactly one worker), and once every worker has terminated, the executed
jobs are exactly the submitted ones — every submitted job was executed
exactly once, whatever `N` is relative to the pool size. -/
theorem jobs_executed_exactly_once (size : Nat) (hsz : 1 ≤ size) (s : PoolSys)
    (h : Reach size s) :
    (s.executed.map Prod.snd).Nodup ∧
      (∀ w w' j, (w, j) ∈ s.executed → (w', j) ∈ s.executed → w = w') ∧
      ((∀ p ∈ s.phases, p = WPhase.terminated) →
        (s.executed.map Prod.snd).Perm s.submitted) := by
  obtain ⟨hperm, hsub, hterm, hempty, hlen⟩ := reach_inv size s h
  have hsubnd : s.submitted.Nodup := by
    rw [hsub]
    exact List.nodup_range _
  have hmnd : ((s.queue : Multiset Nat) + (inflight s.phases : Multiset Nat) +
      (s.executed.map Prod.snd : Multiset Nat)).Nodup := by
    rw [← hperm]
    exact Multiset.coe_nodup.2 hsubnd
  have hexnd : (s.executed.map Prod.snd).Nodup := by
    have hle := Multiset.nodup_of_le
      (Multiset.le_add_left (s.executed.map Prod.snd : Multiset Nat)
        ((s.queue : Multiset Nat) + (inflight s.phases : Multiset Nat))) hmnd
    exact Multiset.coe_nodup.1 hle
  refine ⟨hexnd, ?_, ?_⟩
  · intro w w' j hw hw'
    by_contra hne
    have hpw : s.executed.Pairwise (fun a b => a.2 ≠ b.2) :=
      List.pairwise_map.mp hexnd
    have hsym : Symmetric fun a b : Nat × Nat => a.2 ≠ b.2 :=
      fun _ _ hab hba => hab hba.symm
    have hne' : (w, j) ≠ (w', j) := by simp [hne]
    exact hpw.forall hsym hw hw' hne' rfl
  · intro hall
    have hinf : inflight s.phases = [] := inflight_eq_nil_of_all_terminated _ hall
    have hq : s.queue = [] := by
      refine hempty hall ?_
      intro hnil
      rw [hnil] at hlen
      simp at hlen
      omega
    rw [hinf, hq] at hperm
    simp only [Multiset.coe_nil, zero_add] at hperm
    exact (Multiset.coe_eq_coe.1 hperm).symm

/-- Witness for C1 at the end of the demonstration run. -/
theorem jobs_executed_exactly_once_witness :
    (demo7.executed.map Prod.snd).Nodup ∧
      (∀ w w' j, (w, j) ∈ demo7.executed → (w', j) ∈ demo7.executed → w = w') ∧
      ((∀ p ∈ demo7.phases, p = WPhase.terminated) →
        (demo7.executed.map Prod.snd).Perm demo7.submitted) :=
  jobs_executed_exactly_once 1 (by decide) demo7 reach_demo7

/-- Claim C4: once shutdown of a pool of size `≥ 1` has completed — the
sender dropped and every worker joined, i.e. every worker thread in the
`terminated` phase, so no thread leaks — the queue is empty, no job is
still in flight, and every job queued or in flight at any point has
actually completed execution: the execution log is a permutation of the
submitted jobs, not merely a record of dequeues. -/
theorem drop_waits_for_all_jobs (size : Nat) (hsz : 1 ≤ size) (s : PoolSys)
    (h : Reach size s) (hd : dropComplete s) :
    s.queue = [] ∧ inflight s.phases = [] ∧
      (s.executed.map Prod.snd).Perm s.submitted ∧
      ∀ p ∈ s.phases, p = WPhase.terminated := by
  obtain ⟨hperm, hsub, hterm, hempty, hlen⟩ := reach_inv size s h
  obtain ⟨hclosed, hall⟩ := hd
  have hinf : inflight s.phases = [] := inflight_eq_nil_of_all_terminated _ hall
  have hq : s.queue = [] := by
    refine hempty hall ?_
    intro hnil
    rw [hnil] at hlen
    simp at hlen
    omega
  refine ⟨hq, hinf, ?_, hall⟩
  rw [hinf, hq] at hperm
  simp only [Multiset.coe_nil, zero_add] at hperm
  exact (Multiset.coe_eq_coe.1 hperm).symm

/-- Witness for C4 at the end of the demonstration run. -/
theorem drop_waits_for_all_jobs_witness :
    demo7.queue = [] ∧ inflight demo7.phases = [] ∧
      (demo7.executed.map Prod.snd).Perm demo7.submitted ∧
      ∀ p ∈ demo7.phases, p = WPhase.terminated :=
  drop_waits_for_all_jobs 1 (by decide) demo7 reach_demo7 ⟨rfl, by decide⟩

end MTServer
